/-
  Verification of the payout JSON conversion tools (brave-intl/bat-go scripts).

  This file shallowly embeds the transaction normalization, grouping, batching
  and totaling logic of `payout_json_conversion_tool.py` and
  `ads_payout_conversion.py`, and proves or refutes the frozen claims about it.

  Modeling conventions:
  * Monetary amounts are tracked as exact rationals (`ℚ`).  Python `Decimal`
    arithmetic (the scripts set context precision 28) is exact for every value
    arising in the claims, so `Decimal` parsing/addition is embedded as exact
    rational arithmetic.
  * Python `float` is IEEE-754 binary64.  A binary64 value is a dyadic
    rational; `floatOfRat` rounds an exact rational to the nearest binary64
    value (round-to-nearest, ties-to-even), which is what CPython computes for
    `float(string)`, `float(Decimal(..))`, and correctly rounded float
    division (the divisor `1E18` is itself exactly representable).  Overflow
    to infinity and subnormal underflow cannot occur for payout magnitudes
    and are not modeled.
  * `str(x)` for a float `x` prints the shortest decimal that parses back to
    `x`; records store the rational value of the binary64 number, and
    `float(str(x)) = x`.  `str(round(x, n))` prints exactly the n-decimal
    value, so rounded `bat` fields store that rational (`pyRound2`/`pyRound8`).
-/
import Mathlib

set_option maxRecDepth 100000

set_option allowUnsafeReducibility true
attribute [local semireducible] Rat.mul Rat.inv Rat.add Rat.sub Rat.ofScientific

/-! ## Binary64 (Python float) model over ℚ -/

/-- Floor of a rational, computed directly on the reduced fraction (kernel
friendly; equal to `Int.floor` by `Rat.floor_def`). -/
def ratFloor (q : ℚ) : ℤ := q.num / q.den

theorem ratFloor_eq (q : ℚ) : ratFloor q = ⌊q⌋ := Rat.floor_def.symm

/-- Round a rational to the nearest integer, ties to even.  This is the
rounding IEEE-754 round-to-nearest-even performs at integer scale, and the
rounding of Python's `round` builtin. -/
def rne (q : ℚ) : ℤ :=
  if q - ratFloor q < 1/2 then ratFloor q
  else if (1:ℚ)/2 < q - ratFloor q then ratFloor q + 1
  else if ratFloor q % 2 = 0 then ratFloor q else ratFloor q + 1

/-- `rne` moves a rational by at most 1/2. -/
theorem abs_rne_sub_le (q : ℚ) : |(rne q : ℚ) - q| ≤ 1/2 := by
  have h0 : ((⌊q⌋ : ℚ)) ≤ q := Int.floor_le q
  have h1 : q < (⌊q⌋ : ℚ) + 1 := Int.lt_floor_add_one q
  rw [rne, ratFloor_eq]
  split_ifs with ha hb hc
  · rw [abs_le]; constructor <;> linarith
  · rw [abs_le]; push_cast; constructor <;> linarith
  · rw [abs_le]; constructor <;> linarith
  · rw [abs_le]; push_cast; constructor <;> linarith

/-- Fuel-bounded floor of the base-2 logarithm of a natural number.
`fl2 fuel n` equals `⌊log₂ n⌋` whenever `1 ≤ n ≤ fuel`. -/
def fl2 : ℕ → ℕ → ℕ
  | 0, _ => 0
  | fuel + 1, n => if n ≤ 1 then 0 else fl2 fuel (n / 2) + 1

/-- `⌊log₂ n⌋` for `n ≥ 1` (and `0` at `0`). -/
def floorLog2 (n : ℕ) : ℕ := fl2 n n

theorem fl2_spec : ∀ (fuel n : ℕ), 1 ≤ n → n ≤ fuel →
    2 ^ fl2 fuel n ≤ n ∧ n < 2 ^ (fl2 fuel n + 1)
  | 0, n, h1, h2 => absurd (Nat.le_trans h1 h2) (by omega)
  | fuel + 1, n, h1, h2 => by
    rw [fl2]
    split_ifs with hn
    · constructor <;> omega
    · have hrec := fl2_spec fuel (n / 2) (by omega) (by omega)
      have hpow : 2 ^ (fl2 fuel (n / 2) + 1) = 2 * 2 ^ fl2 fuel (n / 2) := by
        rw [pow_succ]; ring
      constructor
      · calc 2 ^ (fl2 fuel (n / 2) + 1) = 2 * 2 ^ fl2 fuel (n / 2) := hpow
        _ ≤ 2 * (n / 2) := by omega
        _ ≤ n := by omega
      · have : n < 2 * 2 ^ (fl2 fuel (n / 2) + 1) := by omega
        calc n < 2 * 2 ^ (fl2 fuel (n / 2) + 1) := this
        _ = 2 ^ (fl2 fuel (n / 2) + 1 + 1) := by rw [pow_succ]; ring

theorem floorLog2_spec (n : ℕ) (h : 1 ≤ n) :
    2 ^ floorLog2 n ≤ n ∧ n < 2 ^ (floorLog2 n + 1) :=
  fl2_spec n n h (Nat.le_refl n)

/-- The exponent `e` with `2 ^ e ≤ x < 2 ^ (e + 1)`, for `x > 0`. -/
def ratExp (x : ℚ) : ℤ :=
  if (2:ℚ) ^ ((floorLog2 x.num.natAbs : ℤ) - (floorLog2 x.den : ℤ)) ≤ x then
    (floorLog2 x.num.natAbs : ℤ) - (floorLog2 x.den : ℤ)
  else
    (floorLog2 x.num.natAbs : ℤ) - (floorLog2 x.den : ℤ) - 1

theorem qpow_cast (k : ℕ) : (2:ℚ) ^ ((k : ℤ)) = ((2 ^ k : ℕ) : ℚ) := by
  rw [zpow_natCast]; push_cast; ring

theorem qpow_cast_succ (k : ℕ) : (2:ℚ) ^ ((k : ℤ) + 1) = ((2 ^ (k + 1) : ℕ) : ℚ) := by
  rw [show ((k:ℤ) + 1) = ((k + 1 : ℕ) : ℤ) by push_cast; ring, zpow_natCast]
  push_cast; ring

theorem ratExp_spec (x : ℚ) (hx : 0 < x) :
    (2:ℚ) ^ ratExp x ≤ x ∧ x < (2:ℚ) ^ (ratExp x + 1) := by
  have hnum : 0 < x.num := Rat.num_pos.mpr hx
  have hnum1 : 1 ≤ x.num.natAbs := by omega
  have hden1 : 1 ≤ x.den := x.pos
  obtain ⟨hn1, hn2⟩ := floorLog2_spec x.num.natAbs hnum1
  obtain ⟨hd1, hd2⟩ := floorLog2_spec x.den hden1
  set a : ℤ := (floorLog2 x.num.natAbs : ℤ) with ha
  set b : ℤ := (floorLog2 x.den : ℤ) with hb
  have hxnum : ((x.num.natAbs : ℕ) : ℚ) = (x.num : ℚ) := by
    rw [Int.cast_natAbs]
    exact_mod_cast abs_of_pos hnum
  have hnq1 : (2:ℚ) ^ a ≤ (x.num : ℚ) := by
    rw [ha, qpow_cast, ← hxnum]
    exact_mod_cast hn1
  have hnq2 : (x.num : ℚ) < (2:ℚ) ^ (a + 1) := by
    rw [ha, qpow_cast_succ, ← hxnum]
    exact_mod_cast hn2
  have hdq1 : (2:ℚ) ^ b ≤ (x.den : ℚ) := by
    rw [hb, qpow_cast]
    exact_mod_cast hd1
  have hdq2 : (x.den : ℚ) < (2:ℚ) ^ (b + 1) := by
    rw [hb, qpow_cast_succ]
    exact_mod_cast hd2
  have hdpos : (0:ℚ) < (x.den : ℚ) := by exact_mod_cast x.pos
  have hxeq : x = (x.num : ℚ) / (x.den : ℚ) := (Rat.num_div_den x).symm
  have hlow : (2:ℚ) ^ (a - b - 1) < x := by
    rw [hxeq, lt_div_iff hdpos]
    calc (2:ℚ) ^ (a - b - 1) * (x.den : ℚ)
        < (2:ℚ) ^ (a - b - 1) * (2:ℚ) ^ (b + 1) := by
          exact mul_lt_mul_of_pos_left hdq2 (zpow_pos (by norm_num) _)
      _ = (2:ℚ) ^ a := by
          rw [← zpow_add₀ (by norm_num : (2:ℚ) ≠ 0)]; ring_nf
      _ ≤ (x.num : ℚ) := hnq1
  have hhigh : x < (2:ℚ) ^ (a - b + 1) := by
    rw [hxeq, div_lt_iff hdpos]
    calc (x.num : ℚ) < (2:ℚ) ^ (a + 1) := hnq2
      _ = (2:ℚ) ^ (a - b + 1) * (2:ℚ) ^ b := by
          rw [← zpow_add₀ (by norm_num : (2:ℚ) ≠ 0)]; ring_nf
      _ ≤ (2:ℚ) ^ (a - b + 1) * (x.den : ℚ) := by
          exact mul_le_mul_of_nonneg_left hdq1 (zpow_pos (by norm_num) _).le
  rw [ratExp]
  split_ifs with hif
  · exact ⟨hif, hhigh⟩
  · constructor
    · exact hlow.le
    · have : x < (2:ℚ) ^ (a - b) := lt_of_not_le hif
      calc x < (2:ℚ) ^ (a - b) := this
        _ = (2:ℚ) ^ (a - b - 1 + 1) := by ring_nf

/-- Round a positive rational to the nearest binary64 value (53-bit
significand), ties to even. -/
def floatOfRatPos (x : ℚ) : ℚ :=
  (rne (x / 2 ^ (ratExp x - 52)) : ℚ) * 2 ^ (ratExp x - 52)

/-- Rounding a positive rational to binary64 moves it by at most its value
times `2 ^ (-53)` (half an ulp is at most that for a normalized value). -/
theorem abs_floatOfRatPos_sub_le (x : ℚ) (hx : 0 < x) :
    |floatOfRatPos x - x| ≤ x / 2 ^ 53 := by
  have h2 : (2:ℚ) ≠ 0 := by norm_num
  set e : ℤ := ratExp x with he
  have hu : (0:ℚ) < 2 ^ (e - 52) := zpow_pos (by norm_num) _
  have hspec := ratExp_spec x hx
  have key : floatOfRatPos x - x = ((rne (x / 2 ^ (e - 52)) : ℚ) - x / 2 ^ (e - 52)) * 2 ^ (e - 52) := by
    rw [floatOfRatPos, ← he, sub_mul, div_mul_cancel₀ _ hu.ne']
  calc |floatOfRatPos x - x|
      = |(rne (x / 2 ^ (e - 52)) : ℚ) - x / 2 ^ (e - 52)| * 2 ^ (e - 52) := by
        rw [key, abs_mul, abs_of_pos hu]
    _ ≤ (1/2) * 2 ^ (e - 52) := by
        exact mul_le_mul_of_nonneg_right (abs_rne_sub_le _) hu.le
    _ = 2 ^ (e - 53) := by
        rw [show e - 53 = (e - 52) + (-1) by ring, zpow_add₀ h2, zpow_neg_one]
        ring
    _ ≤ x / 2 ^ 53 := by
        rw [show e - 53 = e + (-((53:ℕ):ℤ)) by push_cast; ring, zpow_add₀ h2, zpow_neg,
          zpow_natCast, ← div_eq_mul_inv]
        gcongr
        exact hspec.1

/-- Round any rational to the nearest binary64 value: the value CPython
produces for `float(s)` on a decimal string of value `x`, for a `Decimal`
converted to float, and for correctly rounded float arithmetic results. -/
def floatOfRat (x : ℚ) : ℚ :=
  if x = 0 then 0
  else if x < 0 then -floatOfRatPos (-x)
  else floatOfRatPos x

theorem floatOfRat_of_pos (x : ℚ) (hx : 0 < x) : floatOfRat x = floatOfRatPos x := by
  rw [floatOfRat, if_neg hx.ne', if_neg (not_lt.mpr hx.le)]

/-- Binary64 addition: the correctly rounded exact sum. -/
def floatAdd (a b : ℚ) : ℚ := floatOfRat (a + b)

/-- Python `round(d, 2)` on a binary64 value `d`, at the level of the printed
decimal string: the nearest multiple of 1/100 (ties to even; a tie cannot
actually occur for a dyadic `d`). -/
def pyRound2 (d : ℚ) : ℚ := (rne (100 * d) : ℚ) / 100

/-- Python `round(d, 8)` on a binary64 value `d` (the variant used by
`ads_payout_conversion.py`). -/
def pyRound8 (d : ℚ) : ℚ := (rne (10 ^ 8 * d) : ℚ) / 10 ^ 8

/-- The composite `bat` conversion of the ads tools: Python's
`float(transaction['probi']) / 1E18` — parse the integer `probi` to the
nearest binary64 value, then divide by the exactly representable `1E18` with
correct rounding.  This is `adsBatRaw` below. -/
def adsBatRaw (probi : ℤ) : ℚ := floatOfRat (floatOfRat (probi : ℚ) / 10 ^ 18)

/-- The two binary64 roundings in `adsBatRaw` keep the result within relative
error `2 ^ (-51)` of the exact quotient `probi / 10^18`. -/
theorem adsBatRaw_close (p : ℤ) (hp : 0 < p) :
    |adsBatRaw p - (p : ℚ) / 10 ^ 18| ≤ ((p : ℚ) / 10 ^ 18) / 2 ^ 51 := by
  have hP : (0:ℚ) < (p : ℚ) := by exact_mod_cast hp
  set P : ℚ := (p : ℚ) with hPdef
  set D : ℚ := (10:ℚ) ^ 18 with hDdef
  have hDpos : (0:ℚ) < D := by rw [hDdef]; norm_num
  have h1 : |floatOfRat P - P| ≤ P / 2 ^ 53 := by
    rw [floatOfRat_of_pos P hP]
    exact abs_floatOfRatPos_sub_le P hP
  set P1 : ℚ := floatOfRat P with hP1def
  have hfrac : P / 2 ^ 53 < P := div_lt_self hP (by norm_num)
  have hP1pos : 0 < P1 := by
    have hlo := (abs_le.mp h1).1
    linarith
  have hP1le : P1 ≤ P + P / 2 ^ 53 := by
    have hhi := (abs_le.mp h1).2
    linarith
  set B : ℚ := P / D with hBdef
  have hBpos : 0 < B := div_pos hP hDpos
  have hq0pos : 0 < P1 / D := div_pos hP1pos hDpos
  have h2 : |floatOfRat (P1 / D) - P1 / D| ≤ (P1 / D) / 2 ^ 53 := by
    rw [floatOfRat_of_pos _ hq0pos]
    exact abs_floatOfRatPos_sub_le _ hq0pos
  have hq0le : P1 / D ≤ B + B / 2 ^ 53 := by
    rw [hBdef, div_div]
    rw [show P / D + P / (D * 2 ^ 53) = (P + P / 2 ^ 53) / D by field_simp; ring]
    gcongr
  have habs : |P1 / D - B| ≤ B / 2 ^ 53 := by
    rw [hBdef, div_sub_div_same, abs_div, abs_of_pos hDpos, div_div]
    rw [show P / (D * 2 ^ 53) = (P / 2 ^ 53) / D by rw [div_div]; ring_nf]
    gcongr
  have step : |floatOfRat (P1 / D) - B| ≤ (P1 / D) / 2 ^ 53 + B / 2 ^ 53 :=
    calc |floatOfRat (P1 / D) - B|
        ≤ |floatOfRat (P1 / D) - P1 / D| + |P1 / D - B| := abs_sub_le _ _ _
      _ ≤ (P1 / D) / 2 ^ 53 + B / 2 ^ 53 := add_le_add h2 habs
  have final : (B + B / 2 ^ 53) / 2 ^ 53 + B / 2 ^ 53 ≤ B / 2 ^ 51 := by
    rw [div_add_div_same, div_le_div_iff (by norm_num) (by norm_num : (0:ℚ) < 2 ^ 51)]
    ring_nf
    nlinarith [hBpos.le]
  have hmono : (P1 / D) / 2 ^ 53 ≤ (B + B / 2 ^ 53) / 2 ^ 53 := by gcongr
  have : |floatOfRat (P1 / D) - B| ≤ B / 2 ^ 51 := by linarith
  rw [adsBatRaw]
  rw [hBdef] at this
  exact this

/-! ## Embedding of `convert_ads_file` (payout_json_conversion_tool.py, ads mode) -/

/-- Python `s.startswith(p)`, computed on the character lists. -/
def pyStartsWith (s p : String) : Bool := p.data.isPrefixOf s.data

/-- Splits a character list at every occurrence of the character `c`
(Python `str.split(c)`). -/
def splitOnChar (c : Char) : List Char → List (List Char)
  | [] => [[]]
  | x :: xs =>
    if x = c then [] :: splitOnChar c xs
    else
      match splitOnChar c xs with
      | [] => [[x]]
      | h :: t => (x :: h) :: t

/-- Python `s.split(':')[1]`.  When `s` has no colon Python raises IndexError;
the claims only exercise publishers of the form `kind:id`, and the model
returns `""` in the error case. -/
def pySplitColonSecond (s : String) : String :=
  String.mk ((splitOnChar ':' s.data).getD 1 [])

/-- The character-list portion before the first occurrence of `sep`. -/
def takeUntilSep (sep : List Char) : List Char → List Char
  | [] => []
  | c :: cs => if sep.isPrefixOf (c :: cs) then [] else c :: takeUntilSep sep cs

/-- Python `filename.split('.json')[0]`: the portion of the file name before
the first `.json`. -/
def pySplitDropJson (filename : String) : String :=
  String.mk (takeUntilSep ".json".data filename.data)

/-- An input ads transaction record (the fields `convert_ads_file` reads).
`probi` is the integer value of the record's probi field. -/
structure AdsTx where
  walletProvider : String
  probi : ℤ
  publisher : String
  address : String
  transactionId : String
deriving DecidableEq

/-- A normalized output record: the input record after `convert_ads_file`
rewrites it (drops `walletProvider`, `probi`, `transactionId`; adds
`wallet_provider`, `wallet_provider_id`, `bat`, `owner`, `payout_report_id`).
`bat` holds the rational value of the written decimal string. -/
structure AdsRec where
  wallet_provider : String
  wallet_provider_id : String
  bat : ℚ
  publisher : String
  address : String
  owner : String
  payout_report_id : String
deriving DecidableEq

/-- The per-record normalization of `convert_ads_file` (lines 89-116).  The
final arm is unreachable for the three supported providers: in Python a
record passing the provider filter with any other provider value would hit a
KeyError at `transaction['bat']`; the claims quantify over the supported
providers only. -/
def normalizeAds (t : AdsTx) : AdsRec :=
  if t.walletProvider = "uphold" then
    { wallet_provider := "uphold"
      wallet_provider_id := "uphold#card:" ++ pySplitColonSecond t.publisher
      bat := adsBatRaw t.probi
      publisher := t.publisher
      address := t.address
      owner := t.publisher
      payout_report_id := t.transactionId }
  else if t.walletProvider = "bitflyer" then
    { wallet_provider := "bitflyer"
      wallet_provider_id := "bitflyer#id:" ++ t.address
      bat := pyRound2 (adsBatRaw t.probi)
      publisher := "wallet:" ++ t.address
      address := t.address
      owner := "wallet:" ++ t.address
      payout_report_id := t.transactionId }
  else if t.walletProvider = "gemini" then
    { wallet_provider := "gemini"
      wallet_provider_id := "gemini#id:" ++ pySplitColonSecond t.publisher
      bat := adsBatRaw t.probi
      publisher := "wallet:" ++ t.address
      address := t.address
      owner := "wallet:" ++ t.address
      payout_report_id := t.transactionId }
  else
    { wallet_provider := ""
      wallet_provider_id := ""
      bat := adsBatRaw t.probi
      publisher := t.publisher
      address := t.address
      owner := ""
      payout_report_id := t.transactionId }

/-- The loop state of `convert_ads_file`: the current output buffer
(`provider_exclusive_data`), the files written so far, the running float
total (`total_bat`) and the next batch suffix. -/
structure AdsState where
  buffer : List AdsRec
  files : List (String × List AdsRec)
  total : ℚ
  suffix : ℕ
deriving DecidableEq

/-- One iteration of the `for transaction in data` loop of
`convert_ads_file`: filter on `walletProvider`, normalize, accumulate the
float total (`total_bat += float(transaction['bat'])`, a binary64 addition of
the parsed written value), append to the buffer, and flush a batch file once
the buffer length exceeds 10 (for bitflyer/gemini). -/
def adsStep (provider basename : String) (st : AdsState) (t : AdsTx) : AdsState :=
  if t.walletProvider = provider then
    if (provider = "bitflyer" ∨ provider = "gemini") ∧ (st.buffer ++ [normalizeAds t]).length > 10 then
      { buffer := []
        files := st.files ++
          [(provider ++ "_" ++ basename ++ "_converted_fixed_" ++ Nat.repr st.suffix ++ ".json",
            st.buffer ++ [normalizeAds t])]
        total := floatAdd st.total (floatOfRat (normalizeAds t).bat)
        suffix := st.suffix + 1 }
    else
      { st with
          buffer := st.buffer ++ [normalizeAds t]
          total := floatAdd st.total (floatOfRat (normalizeAds t).bat) }
  else st

/-- The result of one `convert_ads_file` run: every file written (name and
content, in order), and the reported `Total BAT`. -/
structure AdsResult where
  files : List (String × List AdsRec)
  total : ℚ
deriving DecidableEq

/-- `convert_ads_file(filename, provider)` of
`payout_json_conversion_tool.py` on the parsed input `data`: the loop, then
the final flush (bitflyer/gemini: the trailing batch with the next suffix;
uphold: the single `_converted.json` file). -/
def convert_ads_file (filename provider : String) (data : List AdsTx) : AdsResult :=
  let basename := pySplitDropJson filename
  let st := data.foldl (adsStep provider basename) ⟨[], [], 0, 1⟩
  if provider = "bitflyer" ∨ provider = "gemini" then
    ⟨st.files ++
      [(provider ++ "_" ++ basename ++ "_converted_fixed_" ++ Nat.repr st.suffix ++ ".json", st.buffer)],
      st.total⟩
  else if provider = "uphold" then
    ⟨st.files ++ [(provider ++ "_" ++ basename ++ "_converted.json", st.buffer)], st.total⟩
  else ⟨st.files, st.total⟩

/-- The bitflyer `bat` computation of `src/ads_payout_conversion.py`
(line 27): `str(round(float(probi)/1E18, 8))` — rounded to 8 decimal
places, not 2. -/
def adsPayoutConversionBat (probi : ℤ) : ℚ := pyRound8 (adsBatRaw probi)

/-! ## Embedding of `convert_publishers_file` (payout_json_conversion_tool.py) -/

/-- The JSON value of a record's `wallet_provider_id` field: the key may be
missing from the mapping (Python raises KeyError on access), hold `null`
(Python `None`), or hold a string. -/
inductive Fld where
  | missing : Fld
  | null : Fld
  | str : String → Fld
deriving DecidableEq

/-- An input record of publishers mode.  `bat` is the exact decimal value of
the record's bat string; `aux` stands for all the remaining fields of the
JSON record, carried through unchanged.  Fields other than
`wallet_provider_id` are modeled as always present (no claim exercises their
absence). -/
structure PubRec where
  wallet_provider_id : Fld
  typ : String
  bat : ℚ
  publisher : String
  aux : String
deriving DecidableEq

/-- The truthiness test
`x['wallet_provider_id'] and x['wallet_provider_id'].startswith('bitflyer')`
of the partition predicate (line 41): a missing key raises KeyError, `None`
and `""` are falsy. -/
def truthyWpidBitflyer : Fld → Except String Bool
  | Fld.missing => Except.error "KeyError: wallet_provider_id"
  | Fld.null => Except.ok false
  | Fld.str s => Except.ok (pyStartsWith s "bitflyer")

/-- The `partition` helper applied to the bitflyer predicate (lines 17-25,
41): split `data` into (bitflyer, non-bitflyer) keeping order, evaluating the
predicate on every record. -/
def partitionE : List PubRec → Except String (List PubRec × List PubRec)
  | [] => Except.ok ([], [])
  | x :: xs =>
    match truthyWpidBitflyer x.wallet_provider_id with
    | Except.error e => Except.error e
    | Except.ok b =>
      match partitionE xs with
      | Except.error e => Except.error e
      | Except.ok (ts, fs) =>
        Except.ok (if b then (x :: ts, fs) else (ts, x :: fs))

/-- Adds `b` to the `bat` of the first record in `l` whose
`wallet_provider_id` equals `k` (the in-place `found_bitflyer_tx["bat"] =
Decimal(found_bitflyer_tx['bat']) + Decimal(transaction['bat'])` of line 50). -/
def addBatToFirst : List PubRec → Fld → ℚ → List PubRec
  | [], _, _ => []
  | x :: xs, k, b =>
    if x.wallet_provider_id = k then { x with bat := x.bat + b } :: xs
    else x :: addBatToFirst xs k b

/-- One iteration of the grouping loop (lines 44-53): find the first already
grouped record with the same `wallet_provider_id`; if found add our `bat` to
it, otherwise append the record. -/
def groupStep (acc : List PubRec) (t : PubRec) : List PubRec :=
  if acc.any (fun x => x.wallet_provider_id == t.wallet_provider_id) then
    addBatToFirst acc t.wallet_provider_id t.bat
  else acc ++ [t]

/-- The grouping loop of `convert_publishers_file` over the bitflyer
partition (`new_grouped_bitflyer_txs`). -/
def groupBitflyer (txs : List PubRec) : List PubRec := txs.foldl groupStep []

/-- `transaction['wallet_provider_id'] != None and
transaction['wallet_provider_id'].startswith(provider)` (line 60).  A missing
key would raise KeyError in Python; the records reaching this test passed the
partition predicate, so the key is present, and the `missing` arm is
unreachable. -/
def wpMatchB (provider : String) (r : PubRec) : Bool :=
  match r.wallet_provider_id with
  | Fld.str s => pyStartsWith s provider
  | _ => false

/-- The in-place rounding of line 67-69: when the record's
`wallet_provider_id` starts with `bitflyer`, replace `bat` with
`str(round(float(bat), 2))` — the binary64 parse of the decimal value,
rounded to 2 places. -/
def mutateRec (r : PubRec) : PubRec :=
  match r.wallet_provider_id with
  | Fld.str s =>
    if pyStartsWith s "bitflyer" then { r with bat := pyRound2 (floatOfRat r.bat) } else r
  | _ => r

/-- The accumulator of the second loop of `convert_publishers_file`:
contribution and referral buckets plus the two Decimal running totals. -/
structure PubState where
  contributions : List PubRec
  referrals : List PubRec
  cAmt : ℚ
  rAmt : ℚ
deriving DecidableEq

/-- One iteration of the second loop (lines 58-69): records whose
`wallet_provider_id` starts with the requested provider are bucketed by exact
`type` match, the totals accumulate the pre-rounding `bat`, and the bucketed
record object is mutated afterwards by the bitflyer rounding (so the bucket
holds the rounded record). -/
def loop2Step (provider : String) (st : PubState) (t : PubRec) : PubState :=
  if wpMatchB provider t then
    if t.typ = "contribution" then
      { st with contributions := st.contributions ++ [mutateRec t], cAmt := st.cAmt + t.bat }
    else if t.typ = "referral" then
      { st with referrals := st.referrals ++ [mutateRec t], rAmt := st.rAmt + t.bat }
    else st
  else st

/-- The output of one `convert_publishers_file` run: the two files written
(contributions and referrals) and the three printed totals (`total` is
`referral_amount + contribution_amount`). -/
structure PubOut where
  contributions : List PubRec
  referrals : List PubRec
  contributionAmount : ℚ
  referralAmount : ℚ
  total : ℚ
deriving DecidableEq

/-- `convert_publishers_file(filename, provider)` of
`payout_json_conversion_tool.py` on the parsed input `data`: partition on the
bitflyer predicate (KeyError aborts the run before anything is written),
group the bitflyer partition, then run the bucketing loop over
`[*non_bitflyer_txs, *new_grouped_bitflyer_txs]`. -/
def convert_publishers_file (provider : String) (data : List PubRec) : Except String PubOut :=
  match partitionE data with
  | Except.error e => Except.error e
  | Except.ok (bitflyer_txs, non_bitflyer_txs) =>
    let grouped := groupBitflyer bitflyer_txs
    let st := (non_bitflyer_txs ++ grouped).foldl (loop2Step provider) ⟨[], [], 0, 0⟩
    Except.ok ⟨st.contributions, st.referrals, st.cAmt, st.rAmt, st.rAmt + st.cAmt⟩

/-! ## Loop invariants for `convert_ads_file` -/

theorem adsStep_nomatch (provider basename : String) (st : AdsState) (t : AdsTx)
    (h : ¬ t.walletProvider = provider) : adsStep provider basename st t = st := by
  rw [adsStep, if_neg h]

theorem ads_foldl_nomatch (provider basename : String) :
    ∀ (data : List AdsTx), (∀ t ∈ data, ¬ t.walletProvider = provider) →
    ∀ (st : AdsState), data.foldl (adsStep provider basename) st = st := by
  intro data
  induction data with
  | nil => intro _ st; rfl
  | cons t ts ih =>
    intro h st
    rw [List.foldl_cons, adsStep_nomatch provider basename st t (h t (List.mem_cons_self t ts))]
    exact ih (fun x hx => h x (List.mem_cons_of_mem t hx)) st

theorem adsStep_match (provider basename : String) (st : AdsState) (t : AdsTx)
    (h : t.walletProvider = provider) :
    ((adsStep provider basename st t).files.map Prod.snd).flatten ++
        (adsStep provider basename st t).buffer =
      (((st.files.map Prod.snd).flatten ++ st.buffer) ++ [normalizeAds t]) ∧
    (adsStep provider basename st t).total =
      floatAdd st.total (floatOfRat (normalizeAds t).bat) := by
  rw [adsStep, if_pos h]
  split_ifs with hb
  · constructor
    · simp [List.append_assoc]
    · rfl
  · constructor
    · simp [List.append_assoc]
    · rfl

/-- Master invariant of the `convert_ads_file` loop: the records flushed into
files so far plus the live buffer are exactly the normalized matching
records, and the running total is the binary64 left fold over their `bat`
values. -/
theorem ads_loop_spec (provider basename : String) :
    ∀ (data : List AdsTx) (st : AdsState),
      ((data.foldl (adsStep provider basename) st).files.map Prod.snd).flatten ++
          (data.foldl (adsStep provider basename) st).buffer =
        (((st.files.map Prod.snd).flatten ++ st.buffer) ++
          (data.filter (fun t => t.walletProvider == provider)).map normalizeAds) ∧
      (data.foldl (adsStep provider basename) st).total =
        ((data.filter (fun t => t.walletProvider == provider)).map
          (fun t => (normalizeAds t).bat)).foldl
            (fun a b => floatAdd a (floatOfRat b)) st.total := by
  intro data
  induction data with
  | nil => intro st; simp
  | cons t ts ih =>
    intro st
    rw [List.foldl_cons]
    by_cases h : t.walletProvider = provider
    · obtain ⟨h1, h2⟩ := adsStep_match provider basename st t h
      obtain ⟨i1, i2⟩ := ih (adsStep provider basename st t)
      constructor
      · rw [i1, h1, List.filter_cons_of_pos (by simpa using h)]
        simp [List.append_assoc]
      · rw [i2, h2, List.filter_cons_of_pos (by simpa using h)]
        simp
    · rw [adsStep_nomatch provider basename st t h]
      obtain ⟨i1, i2⟩ := ih st
      rw [List.filter_cons_of_neg (by simpa using h)]
      exact ⟨i1, i2⟩

/-! ## Loop invariants for `convert_publishers_file` -/

/-- The bucketing condition for contributions (lines 60-63). -/
def bucketC (provider : String) (r : PubRec) : Bool :=
  wpMatchB provider r && (r.typ == "contribution")

/-- The bucketing condition for referrals (lines 60, 64-66). -/
def bucketR (provider : String) (r : PubRec) : Bool :=
  wpMatchB provider r && (r.typ == "referral")

/-- Master invariant of the bucketing loop: the buckets collect exactly the
matching records of each type (after the bitflyer rounding mutation) and the
totals the pre-rounding `bat` sums. -/
theorem loop2_spec (provider : String) :
    ∀ (l : List PubRec) (st : PubState),
      (l.foldl (loop2Step provider) st).contributions =
        st.contributions ++ (l.filter (bucketC provider)).map mutateRec ∧
      (l.foldl (loop2Step provider) st).referrals =
        st.referrals ++ (l.filter (bucketR provider)).map mutateRec ∧
      (l.foldl (loop2Step provider) st).cAmt =
        st.cAmt + ((l.filter (bucketC provider)).map (fun r => r.bat)).sum ∧
      (l.foldl (loop2Step provider) st).rAmt =
        st.rAmt + ((l.filter (bucketR provider)).map (fun r => r.bat)).sum := by
  intro l
  induction l with
  | nil => intro st; simp
  | cons r l ih =>
    intro st
    rw [List.foldl_cons]
    obtain ⟨i1, i2, i3, i4⟩ := ih (loop2Step provider st r)
    by_cases hw : wpMatchB provider r
    · by_cases hc : r.typ = "contribution"
      · have hstep : loop2Step provider st r =
            { st with contributions := st.contributions ++ [mutateRec r], cAmt := st.cAmt + r.bat } := by
          rw [loop2Step, if_pos hw, if_pos hc]
        have hbC : bucketC provider r = true := by simp [bucketC, hw, hc]
        have hbR : bucketR provider r = false := by simp [bucketR, hw, hc]
        refine ⟨?_, ?_, ?_, ?_⟩
        · rw [i1, hstep, List.filter_cons_of_pos hbC]; simp
        · rw [i2, hstep, List.filter_cons_of_neg (by simp [hbR])]
        · rw [i3, hstep, List.filter_cons_of_pos hbC]; simp; ring
        · rw [i4, hstep, List.filter_cons_of_neg (by simp [hbR])]
      · by_cases hr : r.typ = "referral"
        · have hstep : loop2Step provider st r =
              { st with referrals := st.referrals ++ [mutateRec r], rAmt := st.rAmt + r.bat } := by
            rw [loop2Step, if_pos hw, if_neg hc, if_pos hr]
          have hbC : bucketC provider r = false := by simp [bucketC, hw, hc]
          have hbR : bucketR provider r = true := by simp [bucketR, hw, hr]
          refine ⟨?_, ?_, ?_, ?_⟩
          · rw [i1, hstep, List.filter_cons_of_neg (by simp [hbC])]
          · rw [i2, hstep, List.filter_cons_of_pos hbR]; simp
          · rw [i3, hstep, List.filter_cons_of_neg (by simp [hbC])]
          · rw [i4, hstep, List.filter_cons_of_pos hbR]; simp; ring
        · have hstep : loop2Step provider st r = st := by
            rw [loop2Step, if_pos hw, if_neg hc, if_neg hr]
          have hbC : bucketC provider r = false := by simp [bucketC, hc]
          have hbR : bucketR provider r = false := by simp [bucketR, hr]
          rw [hstep] at i1 i2 i3 i4 ⊢
          refine ⟨?_, ?_, ?_, ?_⟩
          · rw [i1, List.filter_cons_of_neg (by simp [hbC])]
          · rw [i2, List.filter_cons_of_neg (by simp [hbR])]
          · rw [i3, List.filter_cons_of_neg (by simp [hbC])]
          · rw [i4, List.filter_cons_of_neg (by simp [hbR])]
    · have hstep : loop2Step provider st r = st := by
        rw [loop2Step, if_neg hw]
      have hbC : bucketC provider r = false := by simp [bucketC, hw]
      have hbR : bucketR provider r = false := by simp [bucketR, hw]
      rw [hstep] at i1 i2 i3 i4 ⊢
      refine ⟨?_, ?_, ?_, ?_⟩
      · rw [i1, List.filter_cons_of_neg (by simp [hbC])]
      · rw [i2, List.filter_cons_of_neg (by simp [hbR])]
      · rw [i3, List.filter_cons_of_neg (by simp [hbC])]
      · rw [i4, List.filter_cons_of_neg (by simp [hbR])]

/-- When every record carries its `wallet_provider_id` key, the partition is
the plain filter pair on the bitflyer predicate. -/
theorem partitionE_ok :
    ∀ (data : List PubRec), (∀ r ∈ data, r.wallet_provider_id ≠ Fld.missing) →
      partitionE data = Except.ok
        (data.filter (wpMatchB "bitflyer"),
          data.filter (fun r => !(wpMatchB "bitflyer" r))) := by
  intro data
  induction data with
  | nil => intro _; rfl
  | cons x xs ih =>
    intro h
    have hx := h x (List.mem_cons_self x xs)
    have hxs := fun r hr => h r (List.mem_cons_of_mem x hr)
    rw [partitionE]
    cases hwx : x.wallet_provider_id with
    | missing => exact absurd hwx hx
    | null =>
      rw [ih hxs]
      simp [truthyWpidBitflyer, List.filter_cons, wpMatchB, hwx]
    | str s =>
      rw [ih hxs]
      simp only [truthyWpidBitflyer]
      cases hb : pyStartsWith s "bitflyer" with
      | true => simp [List.filter_cons, wpMatchB, hwx, hb]
      | false => simp [List.filter_cons, wpMatchB, hwx, hb]

/-- A record with a missing `wallet_provider_id` key makes the partition (and
hence the whole run) fail with a KeyError before anything is written. -/
theorem partitionE_missing :
    ∀ (data : List PubRec), (∃ r ∈ data, r.wallet_provider_id = Fld.missing) →
      partitionE data = Except.error "KeyError: wallet_provider_id" := by
  intro data
  induction data with
  | nil => intro h; simp at h
  | cons x xs ih =>
    intro h
    rw [partitionE]
    cases hwx : x.wallet_provider_id with
    | missing => rfl
    | null =>
      have h' : ∃ r ∈ xs, r.wallet_provider_id = Fld.missing := by
        rcases h with ⟨r, hr, hrm⟩
        rcases List.mem_cons.mp hr with rfl | hmem
        · exact absurd hrm (by rw [hwx]; intro hc; cases hc)
        · exact ⟨r, hmem, hrm⟩
      rw [ih h']
      rfl
    | str s =>
      have h' : ∃ r ∈ xs, r.wallet_provider_id = Fld.missing := by
        rcases h with ⟨r, hr, hrm⟩
        rcases List.mem_cons.mp hr with rfl | hmem
        · exact absurd hrm (by rw [hwx]; intro hc; cases hc)
        · exact ⟨r, hmem, hrm⟩
      rw [ih h']
      rfl

theorem convert_publishers_missing (provider : String) (data : List PubRec)
    (h : ∃ r ∈ data, r.wallet_provider_id = Fld.missing) :
    convert_publishers_file provider data = Except.error "KeyError: wallet_provider_id" := by
  rw [convert_publishers_file, partitionE_missing data h]

/-! ## Null records are dropped silently (publishers mode) -/

theorem loop2Step_null (provider : String) (st : PubState) (r : PubRec)
    (h : r.wallet_provider_id = Fld.null) : loop2Step provider st r = st := by
  rw [loop2Step]
  simp [wpMatchB, h]

theorem loop2_foldl_filter_null (provider : String) :
    ∀ (l : List PubRec) (st : PubState),
      (l.filter (fun r => !(r.wallet_provider_id == Fld.null))).foldl (loop2Step provider) st =
        l.foldl (loop2Step provider) st := by
  intro l
  induction l with
  | nil => intro st; rfl
  | cons r l ih =>
    intro st
    by_cases h : r.wallet_provider_id = Fld.null
    · rw [List.filter_cons_of_neg (by simp [h]), List.foldl_cons,
        loop2Step_null provider st r h, ih]
    · rw [List.filter_cons_of_pos (by simp [h]), List.foldl_cons, List.foldl_cons, ih]

/-! ## First-seen deduplication (the shape of the grouped key sequence) -/

/-- The keys of a list in first-seen order with duplicates removed (keeps the
first occurrence of each key). -/
def dedupKeepFirst : List Fld → List Fld
  | [] => []
  | x :: xs => x :: dedupKeepFirst (xs.filter (fun y => y != x))
termination_by l => l.length
decreasing_by simp only [List.length_cons]; exact Nat.lt_succ_of_le (List.length_filter_le _ _)

theorem mem_dedupKeepFirst : ∀ (l : List Fld) (a : Fld), a ∈ dedupKeepFirst l ↔ a ∈ l
  | [], a => by simp [dedupKeepFirst]
  | x :: xs, a => by
    simp only [dedupKeepFirst, List.mem_cons]
    by_cases hax : a = x
    · simp [hax]
    · rw [mem_dedupKeepFirst (xs.filter (fun y => y != x)) a]
      simp [List.mem_filter, hax]
termination_by l _ => l.length
decreasing_by simp only [List.length_cons]; exact Nat.lt_succ_of_le (List.length_filter_le _ _)

theorem nodup_dedupKeepFirst : ∀ (l : List Fld), (dedupKeepFirst l).Nodup
  | [] => by simp [dedupKeepFirst]
  | x :: xs => by
    simp only [dedupKeepFirst]
    refine List.nodup_cons.mpr ⟨?_, nodup_dedupKeepFirst (xs.filter (fun y => y != x))⟩
    rw [mem_dedupKeepFirst]
    simp [List.mem_filter]
termination_by l => l.length
decreasing_by simp only [List.length_cons]; exact Nat.lt_succ_of_le (List.length_filter_le _ _)

theorem dedupKeepFirst_append_mem :
    ∀ (l : List Fld) (a : Fld), a ∈ l → dedupKeepFirst (l ++ [a]) = dedupKeepFirst l
  | [], a, ha => absurd ha (List.not_mem_nil a)
  | x :: xs, a, ha => by
    simp only [List.cons_append, dedupKeepFirst]
    congr 1
    rw [List.filter_append]
    by_cases hax : a = x
    · simp [hax]
    · have ha' : a ∈ xs := by
        rcases List.mem_cons.mp ha with h | h
        · exact absurd h hax
        · exact h
      rw [show List.filter (fun y => y != x) [a] = [a] by simp [hax]]
      exact dedupKeepFirst_append_mem (xs.filter (fun y => y != x)) a
        (by simp [List.mem_filter, ha', hax])
termination_by l _ _ => l.length
decreasing_by simp only [List.length_cons]; exact Nat.lt_succ_of_le (List.length_filter_le _ _)

theorem dedupKeepFirst_append_not_mem :
    ∀ (l : List Fld) (a : Fld), a ∉ l → dedupKeepFirst (l ++ [a]) = dedupKeepFirst l ++ [a]
  | [], a, _ => by simp [dedupKeepFirst]
  | x :: xs, a, ha => by
    have hax : a ≠ x := fun h => ha (by simp [h])
    have ha' : a ∉ xs := fun h => ha (by simp [h])
    simp only [List.cons_append, dedupKeepFirst]
    rw [List.filter_append, show List.filter (fun y => y != x) [a] = [a] by simp [hax],
      dedupKeepFirst_append_not_mem (xs.filter (fun y => y != x)) a
        (by simp [List.mem_filter, ha'])]
termination_by l _ _ => l.length
decreasing_by simp only [List.length_cons]; exact Nat.lt_succ_of_le (List.length_filter_le _ _)

/-! ## find? and append helpers -/

theorem find?_append_of_some {α : Type} (p : α → Bool) :
    ∀ (l₁ l₂ : List α) (f : α), l₁.find? p = some f → (l₁ ++ l₂).find? p = some f
  | [], _, f, h => by simp [List.find?] at h
  | x :: xs, l₂, f, h => by
    by_cases hx : p x
    · rw [List.find?_cons_of_pos _ hx] at h
      rw [List.cons_append, List.find?_cons_of_pos _ hx]
      exact h
    · rw [List.find?_cons_of_neg _ hx] at h
      rw [List.cons_append, List.find?_cons_of_neg _ hx]
      exact find?_append_of_some p xs l₂ f h

theorem find?_append_of_none {α : Type} (p : α → Bool) :
    ∀ (l₁ l₂ : List α), l₁.find? p = none → (l₁ ++ l₂).find? p = l₂.find? p
  | [], _, _ => by simp
  | x :: xs, l₂, h => by
    by_cases hx : p x
    · rw [List.find?_cons_of_pos _ hx] at h
      cases h
    · rw [List.find?_cons_of_neg _ hx] at h
      rw [List.cons_append, List.find?_cons_of_neg _ hx]
      exact find?_append_of_none p xs l₂ h

/-! ## Properties of the grouping step -/

theorem addBatToFirst_map_wpid :
    ∀ (l : List PubRec) (k : Fld) (b : ℚ),
      (addBatToFirst l k b).map (fun r => r.wallet_provider_id) =
        l.map (fun r => r.wallet_provider_id)
  | [], _, _ => rfl
  | x :: xs, k, b => by
    rw [addBatToFirst]
    split_ifs with h
    · simp
    · simp [addBatToFirst_map_wpid xs k b]

theorem addBatToFirst_sum :
    ∀ (l : List PubRec) (k : Fld) (b : ℚ), (∃ x ∈ l, x.wallet_provider_id = k) →
      ((addBatToFirst l k b).map (fun r => r.bat)).sum = (l.map (fun r => r.bat)).sum + b
  | [], k, b, h => by simp at h
  | x :: xs, k, b, h => by
    rw [addBatToFirst]
    split_ifs with hx
    · simp
      ring
    · have h' : ∃ y ∈ xs, y.wallet_provider_id = k := by
        rcases h with ⟨y, hy, hyk⟩
        rcases List.mem_cons.mp hy with rfl | hmem
        · exact absurd hyk hx
        · exact ⟨y, hmem, hyk⟩
      simp [addBatToFirst_sum xs k b h']
      ring

theorem addBatToFirst_mem_char :
    ∀ (l : List PubRec) (k : Fld) (b : ℚ),
      (l.map (fun r => r.wallet_provider_id)).Nodup →
      ∀ r ∈ addBatToFirst l k b,
        (∃ x ∈ l, x.wallet_provider_id = k ∧ r = { x with bat := x.bat + b }) ∨
        (r ∈ l ∧ r.wallet_provider_id ≠ k)
  | [], k, b, _, r, hr => by simp [addBatToFirst] at hr
  | x :: xs, k, b, hnd, r, hr => by
    have hnd' := hnd
    rw [List.map_cons, List.nodup_cons] at hnd'
    rw [addBatToFirst] at hr
    split_ifs at hr with hx
    · rcases List.mem_cons.mp hr with rfl | hmem
      · exact Or.inl ⟨x, List.mem_cons_self x xs, hx, rfl⟩
      · refine Or.inr ⟨List.mem_cons_of_mem x hmem, fun hk => ?_⟩
        exact hnd'.1 (by rw [hx, ← hk]; exact List.mem_map_of_mem _ hmem)
    · rcases List.mem_cons.mp hr with rfl | hmem
      · exact Or.inr ⟨List.mem_cons_self r xs, hx⟩
      · rcases addBatToFirst_mem_char xs k b hnd'.2 r hmem with ⟨y, hy, hyk, hre⟩ | ⟨hmem2, hrk⟩
        · exact Or.inl ⟨y, List.mem_cons_of_mem x hy, hyk, hre⟩
        · exact Or.inr ⟨List.mem_cons_of_mem x hmem2, hrk⟩

theorem pubrec_update_update (f : PubRec) (a b : ℚ) :
    ({ { f with bat := a } with bat := b } : PubRec) = { f with bat := b } := rfl

theorem groupStep_sum (acc : List PubRec) (t : PubRec) :
    ((groupStep acc t).map (fun r => r.bat)).sum = ((acc.map (fun r => r.bat)).sum) + t.bat := by
  rw [groupStep]
  split_ifs with h
  · refine addBatToFirst_sum acc _ _ ?_
    obtain ⟨x, hx, hxk⟩ := List.any_eq_true.mp h
    exact ⟨x, hx, by simpa using hxk⟩
  · simp

/-- Grouping never creates or destroys BAT: the sum over the grouped list is
the sum over the input list. -/
theorem groupBitflyer_sum_aux :
    ∀ (txs : List PubRec) (acc : List PubRec),
      ((txs.foldl groupStep acc).map (fun r => r.bat)).sum =
        ((acc.map (fun r => r.bat)).sum) + ((txs.map (fun r => r.bat)).sum) := by
  intro txs
  induction txs with
  | nil => intro acc; simp
  | cons t ts ih =>
    intro acc
    rw [List.foldl_cons, ih (groupStep acc t), groupStep_sum]
    simp
    ring

/-- Full characterization of the grouping loop: the grouped list carries the
first-seen key sequence, each grouped record's `bat` is the exact sum of the
`bat` values of the input records with its key, and all its other fields come
from the first input record with that key. -/
theorem groupBitflyer_spec (txs : List PubRec) :
    (groupBitflyer txs).map (fun r => r.wallet_provider_id) =
      dedupKeepFirst (txs.map (fun r => r.wallet_provider_id)) ∧
    ∀ r ∈ groupBitflyer txs,
      r.bat = ((txs.filter
        (fun t => t.wallet_provider_id == r.wallet_provider_id)).map (fun t => t.bat)).sum ∧
      ∃ f, txs.find? (fun t => t.wallet_provider_id == r.wallet_provider_id) = some f ∧
        r = { f with bat := r.bat } := by
  induction txs using List.reverseRecOn with
  | nil =>
    refine ⟨?_, fun r hr => absurd hr (List.not_mem_nil r)⟩
    simp [groupBitflyer, dedupKeepFirst]
  | append_singleton txs t ih =>
    obtain ⟨ihk, ihr⟩ := ih
    have hsplit : groupBitflyer (txs ++ [t]) = groupStep (groupBitflyer txs) t := by
      simp [groupBitflyer, List.foldl_append]
    have hnd : ((groupBitflyer txs).map (fun r => r.wallet_provider_id)).Nodup := by
      rw [ihk]; exact nodup_dedupKeepFirst _
    by_cases hany :
        ((groupBitflyer txs).any
          (fun x => x.wallet_provider_id == t.wallet_provider_id)) = true
    · -- the key is already grouped: the first match absorbs t.bat
      have hgs : groupStep (groupBitflyer txs) t =
          addBatToFirst (groupBitflyer txs) t.wallet_provider_id t.bat := by
        rw [groupStep, if_pos hany]
      have hex : ∃ x ∈ groupBitflyer txs, x.wallet_provider_id = t.wallet_provider_id := by
        obtain ⟨x, hx, hxk⟩ := List.any_eq_true.mp hany
        exact ⟨x, hx, by simpa using hxk⟩
      have hKmem : t.wallet_provider_id ∈ txs.map (fun r => r.wallet_provider_id) := by
        obtain ⟨x, hxg, hxk⟩ := hex
        have hx2 : x.wallet_provider_id ∈
            (groupBitflyer txs).map (fun r => r.wallet_provider_id) :=
          List.mem_map_of_mem _ hxg
        rw [ihk, mem_dedupKeepFirst] at hx2
        rwa [hxk] at hx2
      constructor
      · rw [hsplit, hgs, addBatToFirst_map_wpid, ihk]
        simp only [List.map_append, List.map_cons, List.map_nil]
        rw [dedupKeepFirst_append_mem _ _ hKmem]
      · intro r hr
        rw [hsplit, hgs] at hr
        rcases addBatToFirst_mem_char (groupBitflyer txs) t.wallet_provider_id t.bat hnd r hr with
          ⟨x, hxg, hxk, hre⟩ | ⟨hrg, hrk⟩
        · obtain ⟨hxbat, f, hfind, hxf⟩ := ihr x hxg
          have hbat_r : r.bat = x.bat + t.bat := by rw [hre]
          have hwpid_r : r.wallet_provider_id = t.wallet_provider_id := by rw [hre]; exact hxk
          rw [hxk] at hxbat hfind
          refine ⟨?_, f, ?_, ?_⟩
          · rw [hbat_r, hwpid_r, hxbat, List.filter_append, List.map_append, List.sum_append]
            simp
          · rw [hwpid_r]
            exact find?_append_of_some _ txs [t] f hfind
          · have hrf : r = { f with bat := x.bat + t.bat } := by
              rw [hre, hxf, pubrec_update_update]
            rw [hrf]
        · obtain ⟨hbat, f, hfind, hrf⟩ := ihr r hrg
          have hne : (t.wallet_provider_id == r.wallet_provider_id) = false :=
            beq_eq_false_iff_ne.mpr (fun hc => hrk hc.symm)
          refine ⟨?_, f, ?_, hrf⟩
          · rw [List.filter_append, show List.filter
              (fun t' => t'.wallet_provider_id == r.wallet_provider_id) [t] = [] by
                simp [hne], List.append_nil]
            exact hbat
          · exact find?_append_of_some _ txs [t] f hfind
    · -- a new key: t is appended unchanged
      have hgs : groupStep (groupBitflyer txs) t = groupBitflyer txs ++ [t] := by
        rw [groupStep, if_neg hany]
      have hnone : ∀ x ∈ groupBitflyer txs, ¬ x.wallet_provider_id = t.wallet_provider_id := by
        intro x hx hk
        exact hany (List.any_eq_true.mpr ⟨x, hx, by simpa using hk⟩)
      have hKnot : t.wallet_provider_id ∉ txs.map (fun r => r.wallet_provider_id) := by
        intro hmem
        rw [← mem_dedupKeepFirst, ← ihk] at hmem
        obtain ⟨x, hxg, hxk⟩ := List.mem_map.mp hmem
        exact hnone x hxg hxk
      constructor
      · rw [hsplit, hgs]
        simp only [List.map_append, List.map_cons, List.map_nil]
        rw [dedupKeepFirst_append_not_mem _ _ hKnot, ihk]
      · intro r hr
        rw [hsplit, hgs] at hr
        rcases List.mem_append.mp hr with hrg | hrt
        · obtain ⟨hbat, f, hfind, hrf⟩ := ihr r hrg
          have hrk : r.wallet_provider_id ≠ t.wallet_provider_id := by
            intro hk
            exact hKnot (by rw [← hk]
                            rw [← mem_dedupKeepFirst, ← ihk]
                            exact List.mem_map_of_mem _ hrg)
          have hne : (t.wallet_provider_id == r.wallet_provider_id) = false :=
            beq_eq_false_iff_ne.mpr (fun hc => hrk hc.symm)
          refine ⟨?_, f, ?_, hrf⟩
          · rw [List.filter_append, show List.filter
              (fun t' => t'.wallet_provider_id == r.wallet_provider_id) [t] = [] by
                simp [hne], List.append_nil]
            exact hbat
          · exact find?_append_of_some _ txs [t] f hfind
        · have hrt' : r = t := by simpa using hrt
          subst hrt'
          have hfilnil : txs.filter
              (fun t' => t'.wallet_provider_id == r.wallet_provider_id) = [] := by
            rw [List.filter_eq_nil]
            intro y hy
            simp only [beq_iff_eq]
            intro hk
            exact hKnot (by rw [← hk]; exact List.mem_map_of_mem _ hy)
          have hfn : txs.find?
              (fun t' => t'.wallet_provider_id == r.wallet_provider_id) = none := by
            rw [List.find?_eq_none]
            intro y hy
            simp only [beq_iff_eq]
            intro hk
            exact hKnot (by rw [← hk]; exact List.mem_map_of_mem _ hy)
          refine ⟨?_, r, ?_, ?_⟩
          · rw [List.filter_append, hfilnil, List.nil_append]
            simp
          · rw [find?_append_of_none _ txs [r] hfn]
            simp
          · rfl

/-- Records whose `wallet_provider_id` is JSON null have no effect on a
publishers run: the run behaves exactly as if they were absent. -/
theorem convert_publishers_ignores_null (provider : String) (data : List PubRec)
    (h : ∀ r ∈ data, r.wallet_provider_id ≠ Fld.missing) :
    convert_publishers_file provider data =
      convert_publishers_file provider
        (data.filter (fun r => !(r.wallet_provider_id == Fld.null))) := by
  have hF : ∀ r ∈ data.filter (fun r => !(r.wallet_provider_id == Fld.null)),
      r.wallet_provider_id ≠ Fld.missing := fun r hr => h r (List.mem_of_mem_filter hr)
  have h1 := partitionE_ok data h
  have h2 := partitionE_ok (data.filter (fun r => !(r.wallet_provider_id == Fld.null))) hF
  have hbf : (data.filter (fun r => !(r.wallet_provider_id == Fld.null))).filter
      (wpMatchB "bitflyer") = data.filter (wpMatchB "bitflyer") := by
    rw [List.filter_filter]
    apply List.filter_congr
    intro r _
    cases hw : r.wallet_provider_id <;> simp [wpMatchB, hw]
  have hnbf : (data.filter (fun r => !(r.wallet_provider_id == Fld.null))).filter
      (fun r => !(wpMatchB "bitflyer" r)) =
      (data.filter (fun r => !(wpMatchB "bitflyer" r))).filter
        (fun r => !(r.wallet_provider_id == Fld.null)) := by
    rw [List.filter_filter, List.filter_filter]
    apply List.filter_congr
    intro r _
    rw [Bool.and_comm]
  simp only [convert_publishers_file, h1, h2]
  rw [hbf, hnbf, List.foldl_append, List.foldl_append, loop2_foldl_filter_null]

/-- Summing over the or-filter splits into the two disjoint filters. -/
theorem sum_filter_or (p q : PubRec → Bool) (hdisj : ∀ r : PubRec, ¬(p r = true ∧ q r = true)) :
    ∀ (l : List PubRec),
      ((l.filter (fun r => p r || q r)).map (fun r => r.bat)).sum =
        ((l.filter p).map (fun r => r.bat)).sum + ((l.filter q).map (fun r => r.bat)).sum := by
  intro l
  induction l with
  | nil => simp
  | cons r l ih =>
    by_cases hp : p r
    · have hq : q r = false := by
        cases hq : q r
        · rfl
        · exact absurd ⟨hp, hq⟩ (hdisj r)
      rw [List.filter_cons_of_pos (by simp [hp]), List.filter_cons_of_pos hp,
        List.filter_cons_of_neg (by simp [hq])]
      simp [ih]
      ring
    · by_cases hq : q r
      · rw [List.filter_cons_of_pos (by simp [hq]), List.filter_cons_of_neg (by simp [hp]),
          List.filter_cons_of_pos hq]
        simp [ih]
        ring
      · rw [List.filter_cons_of_neg (by simp [hp, hq]), List.filter_cons_of_neg (by simp [hp]),
          List.filter_cons_of_neg (by simp [hq])]
        exact ih

/-- End-to-end description of one `convert_ads_file` run for a supported
provider: the concatenation of all written files is exactly the normalized
matching records (each appearing once, the trailing partial batch included),
and the reported total is the binary64 left fold of their `bat` values. -/
theorem convert_ads_file_spec (fn provider : String) (data : List AdsTx)
    (h3 : provider = "uphold" ∨ provider = "bitflyer" ∨ provider = "gemini") :
    ((convert_ads_file fn provider data).files.map Prod.snd).flatten =
      (data.filter (fun t => t.walletProvider == provider)).map normalizeAds ∧
    (convert_ads_file fn provider data).total =
      ((data.filter (fun t => t.walletProvider == provider)).map
        (fun t => (normalizeAds t).bat)).foldl (fun a b => floatAdd a (floatOfRat b)) 0 := by
  obtain ⟨hflat, htotal⟩ := ads_loop_spec provider (pySplitDropJson fn) data ⟨[], [], 0, 1⟩
  simp only [List.map_nil, List.flatten_nil, List.nil_append] at hflat htotal
  rcases h3 with h | h | h <;> subst h <;> refine ⟨?_, ?_⟩ <;>
    (simp only [convert_ads_file]
     split_ifs with h1 h2 <;>
       first
         | exact absurd h1 (by decide)
         | exact absurd h2 (by decide)
         | exact absurd rfl h2
         | exact absurd (by decide) h1
         | (simp only [List.map_append, List.flatten_append, List.map_cons, List.map_nil,
              List.flatten_cons, List.flatten_nil, List.append_nil]
            exact hflat)
         | exact htotal)

/-! ## Concrete inputs used by counterexamples and witnesses -/

/-- A gemini ads record whose probi needs more than 53 bits: `10^18 + 1`. -/
def txGeminiBig : AdsTx := ⟨"gemini", 10 ^ 18 + 1, "publisher:gid", "gaddr", "tx1"⟩

/-- A small bitflyer ads record. -/
def txBitflyerSmall : AdsTx := ⟨"bitflyer", 12345, "publisher:bid", "addr1", "tx2"⟩

/-- A bitflyer ads record with zero probi (used to build large batches). -/
def txBitflyerZero : AdsTx := ⟨"bitflyer", 0, "publisher:zid", "addr0", "tx0"⟩

/-- 101 qualifying bitflyer records. -/
def adsBatch101 : List AdsTx := List.replicate 101 txBitflyerZero

/-- One matching and one non-matching record for an uphold run. -/
def adsMixedExample : List AdsTx :=
  [⟨"uphold", 10 ^ 18, "publisher:uid", "uaddr", "tx3"⟩, txBitflyerZero]

/-- Two publisher records with the same bitflyer key and bats 1.005, 2.345. -/
def pubPairExample : List PubRec :=
  [⟨Fld.str "bitflyer#id:abc", "contribution", 1005/1000, "p1", "a1"⟩,
    ⟨Fld.str "bitflyer#id:abc", "referral", 2345/1000, "p2", "a2"⟩]

/-- Their merge: the first record's fields with the exact sum 3.35. -/
def pubMergedExample : PubRec := ⟨Fld.str "bitflyer#id:abc", "contribution", 67/20, "p1", "a1"⟩

/-- A single bitflyer contribution of 1.005 BAT. -/
def pubBf1005 : List PubRec := [⟨Fld.str "bitflyer#id:a", "contribution", 201/200, "p", "x"⟩]

/-- The output of the publishers run on `pubBf1005`: the written record is
rounded to 1.0 while the reported total is the unrounded 1.005. -/
def pubOut1005 : PubOut :=
  ⟨[⟨Fld.str "bitflyer#id:a", "contribution", 1, "p", "x"⟩], [], 201/200, 0, 201/200⟩

/-- A publishers record whose `wallet_provider_id` key is absent. -/
def pubMissingExample : List PubRec := [⟨Fld.missing, "contribution", 1, "p", "a"⟩]

/-- A null-keyed record next to a normal bitflyer record. -/
def pubNullMix : List PubRec :=
  [⟨Fld.null, "contribution", 5, "p0", "z"⟩,
    ⟨Fld.str "bitflyer#id:b", "referral", 2, "p1", "w"⟩]

/-- Three bitflyer records: a contribution, a referral, and an unknown type. -/
def pubMix8 : List PubRec :=
  [⟨Fld.str "bitflyer#id:c1", "contribution", 1, "pc", "x1"⟩,
    ⟨Fld.str "bitflyer#id:c2", "referral", 2, "pr", "x2"⟩,
    ⟨Fld.str "bitflyer#id:c3", "adsDirectDeposit", 3, "pa", "x3"⟩]

/-! ## The claims -/

/-- C1, counterexample: for `probi = 10^18 + 1` the normalized `bat` (before
any provider-specific rounding — gemini applies none) is 1.0, not the exact
decimal quotient 1.000000000000000001: the conversion is done in binary64
floating point, not exact decimal arithmetic. -/
theorem claim1_counterexample :
    (normalizeAds txGeminiBig).bat ≠ ((10 ^ 18 + 1 : ℚ) / 10 ^ 18) := by decide

/-- C1 (amended): the pre-rounding `bat` of every normalized ads record is
`probi / 1e18` computed in binary64 floating point (two correct roundings:
the probi parse and the division by the exactly representable 1E18).  It
agrees with the exact decimal quotient to relative error at most `2^(-51)`,
and the claim's example `probi = 10^18 → bat = 1.0` does hold exactly. -/
theorem claim1_bat_binary64 :
    (∀ t : AdsTx, t.walletProvider = "uphold" → (normalizeAds t).bat = adsBatRaw t.probi) ∧
    (∀ t : AdsTx, t.walletProvider = "gemini" → (normalizeAds t).bat = adsBatRaw t.probi) ∧
    (∀ p : ℤ, 0 < p → |adsBatRaw p - (p : ℚ) / 10 ^ 18| ≤ ((p : ℚ) / 10 ^ 18) / 2 ^ 51) ∧
    adsBatRaw (10 ^ 18) = 1 := by
  refine ⟨?_, ?_, adsBatRaw_close, by decide⟩
  · intro t ht
    rw [normalizeAds, if_pos ht]
  · intro t ht
    rw [normalizeAds, if_neg (by rw [ht]; decide), if_neg (by rw [ht]; decide), if_pos ht]

theorem claim1_witness :
    (0 : ℤ) < 3 ∧ |adsBatRaw 3 - (3 : ℚ) / 10 ^ 18| ≤ ((3 : ℚ) / 10 ^ 18) / 2 ^ 51 :=
  ⟨by decide, claim1_bat_binary64.2.2.1 3 (by decide)⟩

/-- `pyRound2` produces an exact 2-decimal value within half a cent of its
argument. -/
theorem pyRound2_two_decimals (d : ℚ) :
    ((100 : ℚ) * pyRound2 d).den = 1 ∧ |pyRound2 d - d| ≤ 1 / 200 := by
  constructor
  · rw [pyRound2,
      show (100 : ℚ) * ((rne (100 * d) : ℚ) / 100) = ((rne (100 * d) : ℤ) : ℚ) by field_simp]
    exact Rat.den_intCast _
  · rw [show pyRound2 d - d = ((rne (100 * d) : ℚ) - 100 * d) / 100 by
      rw [pyRound2]; field_simp]
    rw [abs_div, abs_of_pos (show (0:ℚ) < 100 by norm_num)]
    calc |(rne (100 * d) : ℚ) - 100 * d| / 100 ≤ (1/2) / 100 := by
          gcongr
          exact abs_rne_sub_le (100 * d)
      _ = 1 / 200 := by norm_num

/-- C2, counterexample: the claim covers every bitflyer record of the
repository, but `ads_payout_conversion.py` rounds its bitflyer `bat` to 8
decimal places (`round(bat, 8)`), not 2: for `probi = 1.01 * 10^17` the
written bat is 0.101, which is not a 2-decimal value. -/
theorem claim2_counterexample :
    adsPayoutConversionBat (101 * 10 ^ 15) = 101 / 1000 ∧
      ((100 : ℚ) * adsPayoutConversionBat (101 * 10 ^ 15)).den ≠ 1 := by decide

/-- C2 (amended): in `payout_json_conversion_tool.py` every bitflyer record's
output `bat` is the binary64 `probi / 1e18` conversion rounded to exactly 2
decimal places (nearest multiple of 0.01; Python rounds the binary64 value
half-to-even, and a tie cannot occur for a dyadic value): the written value
is an exact 2-decimal quantity within half a cent of the conversion.
`ads_payout_conversion.py` instead rounds to 8 decimal places. -/
theorem claim2_bitflyer_two_decimals :
    ∀ t : AdsTx, t.walletProvider = "bitflyer" →
      ((100 : ℚ) * (normalizeAds t).bat).den = 1 ∧
      |(normalizeAds t).bat - adsBatRaw t.probi| ≤ 1 / 200 := by
  intro t ht
  rw [normalizeAds, if_neg (by rw [ht]; decide), if_pos ht]
  exact pyRound2_two_decimals (adsBatRaw t.probi)

theorem claim2_witness :
    ((100 : ℚ) * (normalizeAds txBitflyerSmall).bat).den = 1 ∧
      |(normalizeAds txBitflyerSmall).bat - adsBatRaw txBitflyerSmall.probi| ≤ 1 / 200 :=
  claim2_bitflyer_two_decimals txBitflyerSmall rfl

/-- C3, counterexample: 101 qualifying bitflyer records do not produce 2
output files: the loop flushes whenever the buffer exceeds the hardcoded 10
(not a configured 100), so they produce 10 files. -/
theorem claim3_counterexample :
    (convert_ads_file "in.json" "bitflyer" adsBatch101).files.length = 10 ∧
      (convert_ads_file "in.json" "bitflyer" adsBatch101).files.length ≠ 2 := by decide

/-- C3 (amended): the batch threshold is the hardcoded 10 and a batch is
flushed when the buffer *exceeds* it, so 101 qualifying records produce
exactly 10 output files: nine batches of 11 records and a trailing batch of
2. -/
theorem claim3_batches_of_eleven :
    (convert_ads_file "in.json" "bitflyer" adsBatch101).files.map
      (fun f => f.2.length) = [11, 11, 11, 11, 11, 11, 11, 11, 11, 2] := by decide

/-- C4: grouping merges records sharing a `wallet_provider_id` into one
record whose `bat` is the exact decimal sum of the group (`Decimal`
arithmetic, embedded exactly), whose other fields are the first-seen
record's, and the output keeps the first-seen key order (`dedupKeepFirst`). -/
theorem claim4_grouping (txs : List PubRec) :
    (groupBitflyer txs).map (fun r => r.wallet_provider_id) =
      dedupKeepFirst (txs.map (fun r => r.wallet_provider_id)) ∧
    ∀ r ∈ groupBitflyer txs,
      r.bat = ((txs.filter
        (fun t => t.wallet_provider_id == r.wallet_provider_id)).map (fun t => t.bat)).sum ∧
      ∃ f, txs.find? (fun t => t.wallet_provider_id == r.wallet_provider_id) = some f ∧
        r = { f with bat := r.bat } :=
  groupBitflyer_spec txs

theorem claim4_witness :
    pubMergedExample.bat = ((pubPairExample.filter
      (fun t => t.wallet_provider_id == pubMergedExample.wallet_provider_id)).map
        (fun t => t.bat)).sum ∧
    ∃ f, pubPairExample.find?
        (fun t => t.wallet_provider_id == pubMergedExample.wallet_provider_id) = some f ∧
      pubMergedExample = { f with bat := pubMergedExample.bat } :=
  (claim4_grouping pubPairExample).2 pubMergedExample (by decide)

/-- C5, counterexample: a publishers run over one bitflyer contribution of
1.005 BAT reports total 1.005, but the only written record carries the
rounded bat 1.0: the reported total is not the exact decimal sum of the
written bat values. -/
theorem claim5_counterexample :
    convert_publishers_file "bitflyer" pubBf1005 = Except.ok pubOut1005 ∧
      pubOut1005.total = 201 / 200 ∧
      ((pubOut1005.contributions ++ pubOut1005.referrals).map (fun r => r.bat)).sum = 1 ∧
      (201 : ℚ) / 200 ≠ 1 :=
  ⟨rfl, by decide, by decide, by decide⟩

/-- C5 (amended): in publishers mode the reported total is the exact decimal
sum of the *pre-rounding* bat values of the bucketed records (the files hold
the post-rounding values); in ads mode the reported total is the binary64
left-to-right sum of the written records' bat values, not an exact decimal
sum. -/
theorem claim5_reported_totals :
    (∀ (provider : String) (data bf nonbf : List PubRec),
        partitionE data = Except.ok (bf, nonbf) →
        ∃ out, convert_publishers_file provider data = Except.ok out ∧
          out.total = (((nonbf ++ groupBitflyer bf).filter
            (fun r => bucketC provider r || bucketR provider r)).map (fun r => r.bat)).sum) ∧
    (∀ (fn provider : String) (data : List AdsTx),
        (provider = "uphold" ∨ provider = "bitflyer" ∨ provider = "gemini") →
        (convert_ads_file fn provider data).total =
          (((convert_ads_file fn provider data).files.map Prod.snd).flatten.map
            (fun r => r.bat)).foldl (fun a b => floatAdd a (floatOfRat b)) 0) := by
  constructor
  · intro provider data bf nonbf hp
    have hdisj : ∀ r : PubRec, ¬(bucketC provider r = true ∧ bucketR provider r = true) := by
      rintro r ⟨hC, hR⟩
      simp only [bucketC, bucketR, Bool.and_eq_true, beq_iff_eq] at hC hR
      exact absurd (hC.2 ▸ hR.2) (by decide)
    simp only [convert_publishers_file, hp]
    refine ⟨_, rfl, ?_⟩
    set st := (nonbf ++ groupBitflyer bf).foldl (loop2Step provider) ⟨[], [], 0, 0⟩ with hst
    show st.rAmt + st.cAmt = _
    obtain ⟨_, _, c3, c4⟩ := loop2_spec provider (nonbf ++ groupBitflyer bf) ⟨[], [], 0, 0⟩
    rw [← hst] at c3 c4
    rw [c3, c4, sum_filter_or (bucketC provider) (bucketR provider) hdisj]
    ring
  · intro fn provider data h3
    obtain ⟨hflat, htotal⟩ := convert_ads_file_spec fn provider data h3
    rw [htotal, hflat, List.map_map]
    rfl

theorem claim5_witness :
    (∃ out, convert_publishers_file "bitflyer" pubBf1005 = Except.ok out ∧
      out.total = (((([] : List PubRec) ++ groupBitflyer pubBf1005).filter
        (fun r => bucketC "bitflyer" r || bucketR "bitflyer" r)).map (fun r => r.bat)).sum) ∧
    (convert_ads_file "in.json" "uphold" adsMixedExample).total =
      (((convert_ads_file "in.json" "uphold" adsMixedExample).files.map Prod.snd).flatten.map
        (fun r => r.bat)).foldl (fun a b => floatAdd a (floatOfRat b)) 0 :=
  ⟨claim5_reported_totals.1 "bitflyer" pubBf1005 pubBf1005 [] rfl,
    claim5_reported_totals.2 "in.json" "uphold" adsMixedExample (Or.inl rfl)⟩

/-- C6: in ads mode (supported provider), the concatenation of all written
output files is exactly the list of normalized matching records — every
matching input record appears exactly once in the union of the files (the
trailing partial batch is always flushed), and non-matching records never
appear. -/
theorem claim6_exactly_once (fn provider : String) (data : List AdsTx)
    (h3 : provider = "uphold" ∨ provider = "bitflyer" ∨ provider = "gemini") :
    ((convert_ads_file fn provider data).files.map Prod.snd).flatten =
      (data.filter (fun t => t.walletProvider == provider)).map normalizeAds :=
  (convert_ads_file_spec fn provider data h3).1

theorem claim6_witness :
    ((convert_ads_file "in.json" "uphold" adsMixedExample).files.map Prod.snd).flatten =
      (adsMixedExample.filter (fun t => t.walletProvider == "uphold")).map normalizeAds :=
  claim6_exactly_once "in.json" "uphold" adsMixedExample (Or.inl rfl)

/-- C7, counterexample: a record whose `wallet_provider_id` key is missing is
not dropped silently — the run aborts with a KeyError from the partition
predicate, and no output is produced. -/
theorem claim7_counterexample :
    convert_publishers_file "bitflyer" pubMissingExample =
      Except.error "KeyError: wallet_provider_id" := rfl

/-- C7 (amended): a record whose `wallet_provider_id` is JSON null never
participates in grouping, never contributes to any total, and appears in
neither output file — the run behaves exactly as if the record were absent;
but a record whose key is *missing* aborts the whole run with a KeyError. -/
theorem claim7_null_dropped :
    (∀ (provider : String) (data : List PubRec),
        (∀ r ∈ data, r.wallet_provider_id ≠ Fld.missing) →
        convert_publishers_file provider data =
          convert_publishers_file provider
            (data.filter (fun r => !(r.wallet_provider_id == Fld.null)))) ∧
    (∀ (provider : String) (data : List PubRec),
        (∃ r ∈ data, r.wallet_provider_id = Fld.missing) →
        convert_publishers_file provider data = Except.error "KeyError: wallet_provider_id") :=
  ⟨convert_publishers_ignores_null, convert_publishers_missing⟩

theorem claim7_witness :
    convert_publishers_file "bitflyer" pubNullMix =
      convert_publishers_file "bitflyer"
        (pubNullMix.filter (fun r => !(r.wallet_provider_id == Fld.null))) :=
  claim7_null_dropped.1 "bitflyer" pubNullMix (by decide)

/-- C8: publishers-mode bucketing is an exact string match on `type` within
the provider-matching records (`bucketC`/`bucketR`): the contributions file
holds exactly the `type = "contribution"` records and the referrals file
exactly the `type = "referral"` ones; any other type value lands in neither
file, and the run completes without error. -/
theorem claim8_type_buckets (provider : String) (data bf nonbf : List PubRec)
    (hp : partitionE data = Except.ok (bf, nonbf)) :
    ∃ out, convert_publishers_file provider data = Except.ok out ∧
      out.contributions =
        ((nonbf ++ groupBitflyer bf).filter (bucketC provider)).map mutateRec ∧
      out.referrals =
        ((nonbf ++ groupBitflyer bf).filter (bucketR provider)).map mutateRec := by
  simp only [convert_publishers_file, hp]
  refine ⟨_, rfl, ?_, ?_⟩
  · obtain ⟨c1, _, _, _⟩ := loop2_spec provider (nonbf ++ groupBitflyer bf) ⟨[], [], 0, 0⟩
    simpa using c1
  · obtain ⟨_, c2, _, _⟩ := loop2_spec provider (nonbf ++ groupBitflyer bf) ⟨[], [], 0, 0⟩
    simpa using c2

theorem claim8_witness :
    ∃ out, convert_publishers_file "bitflyer" pubMix8 = Except.ok out ∧
      out.contributions =
        ((([] : List PubRec) ++ groupBitflyer pubMix8).filter (bucketC "bitflyer")).map mutateRec ∧
      out.referrals =
        ((([] : List PubRec) ++ groupBitflyer pubMix8).filter (bucketR "bitflyer")).map mutateRec :=
  claim8_type_buckets "bitflyer" pubMix8 pubMix8 [] rfl

/-- C9: grouping is sum-preserving — the exact decimal sum of `bat` over the
merged records equals the sum over the input records (applied in the
pipeline to the bitflyer partition). -/
theorem claim9_sum_preserved (txs : List PubRec) :
    ((groupBitflyer txs).map (fun r => r.bat)).sum = (txs.map (fun r => r.bat)).sum := by
  have h := groupBitflyer_sum_aux txs []
  simpa [groupBitflyer] using h

/-- C10: when no input record matches a supported provider, the run still
writes exactly one output file containing an empty JSON array (batch suffix 1
for bitflyer/gemini, the single `_converted.json` file for uphold), and the
reported total is 0. -/
theorem claim10_empty_output (fn provider : String) (data : List AdsTx)
    (h3 : provider = "uphold" ∨ provider = "bitflyer" ∨ provider = "gemini")
    (h0 : ∀ t ∈ data, ¬ t.walletProvider = provider) :
    (convert_ads_file fn provider data).files =
      [((if provider = "uphold"
          then provider ++ "_" ++ pySplitDropJson fn ++ "_converted.json"
          else provider ++ "_" ++ pySplitDropJson fn ++ "_converted_fixed_" ++
            Nat.repr 1 ++ ".json"),
        ([] : List AdsRec))] ∧
    (convert_ads_file fn provider data).total = 0 := by
  have hid := ads_foldl_nomatch provider (pySplitDropJson fn) data h0 ⟨[], [], 0, 1⟩
  rcases h3 with h | h | h <;> subst h <;>
    (simp only [convert_ads_file, hid]
     split_ifs with h1 h2 <;>
       first
         | exact absurd h1 (by decide)
         | exact absurd h2 (by decide)
         | exact absurd rfl h2
         | exact absurd (by decide) h1
         | exact ⟨by simp, rfl⟩)

theorem claim10_witness :
    (convert_ads_file "in.json" "uphold" [txBitflyerZero]).files =
      [((if "uphold" = "uphold"
          then "uphold" ++ "_" ++ pySplitDropJson "in.json" ++ "_converted.json"
          else "uphold" ++ "_" ++ pySplitDropJson "in.json" ++ "_converted_fixed_" ++
            Nat.repr 1 ++ ".json"),
        ([] : List AdsRec))] ∧
    (convert_ads_file "in.json" "uphold" [txBitflyerZero]).total = 0 :=
  claim10_empty_output "in.json" "uphold" [txBitflyerZero] (Or.inl rfl) (by decide)
